import Mathlib

/-!
Verification of the timezone normalizer (`validate_gmt_timezone`) and the
relative date resolver (`parse_relative_date`) from
`src/calendar/calendar_server.py`, as a shallow embedding in Lean.

Python strings are modelled as Lean `String` / `List Char` (the inputs in
question are ASCII).  Python exceptions are modelled as `Except` error values;
the error constructors mirror the distinct `raise` sites and the re-wrapping
performed by the `except` handlers in the source.
-/

namespace Calendar

/-- Decidable equality of `Except` results, used to settle concrete runs of the
embedded functions by `decide`. -/
instance {ε α : Type} [DecidableEq ε] [DecidableEq α] : DecidableEq (Except ε α)
  | .error a, .error b =>
    if h : a = b then .isTrue (by rw [h]) else .isFalse (fun he => h (by injection he))
  | .error _, .ok _ => .isFalse (fun he => Except.noConfusion he)
  | .ok _, .error _ => .isFalse (fun he => Except.noConfusion he)
  | .ok a, .ok b =>
    if h : a = b then .isTrue (by rw [h]) else .isFalse (fun he => h (by injection he))

/-! ## Python string primitives -/

/-- Characters stripped by Python `str.strip()` (the ASCII whitespace set). -/
def isPyWs (c : Char) : Bool :=
  c = ' ' || c = '\t' || c = '\n' || c = '\r' || c = '\x0b' || c = '\x0c'

/-- Python `str.strip()`: drop leading and trailing whitespace. -/
def listStrip (l : List Char) : List Char :=
  ((l.dropWhile isPyWs).reverse.dropWhile isPyWs).reverse

/-- Decimal value of a digit list, most significant digit first (as read by
`int`/`float` on a digit string). -/
def digitsVal (ds : List Char) : Nat :=
  ds.foldl (fun a c => a * 10 + (c.toNat - 48)) 0

/-- Split a character list into its longest digit prefix and the remainder. -/
def spanDigits : List Char → List Char × List Char
  | [] => ([], [])
  | c :: r =>
    if c.isDigit then
      let p := spanDigits r
      (c :: p.1, p.2)
    else ([], c :: r)

/-! ## Model of Python `int(float(s))`

`validate_gmt_timezone` parses the offset substring with `int(float(offset_str))`
(line 110 of the source).  We model Python's `float` literal grammar for finite
decimal literals — optional sign, integer/fraction digits around an optional
dot, optional decimal exponent — with the exact rational value, and `int` as
truncation toward zero.  (`inf`/`nan` literals and digit-group underscores are
outside the inputs exercised here and are not modelled.) -/

/-- Parse an optional leading `+`/`-` sign; `true` means negative. -/
def parseSignChar (l : List Char) : Bool × List Char :=
  match l with
  | [] => (false, [])
  | c :: r =>
    if c = '-' then (true, r)
    else if c = '+' then (false, r)
    else (false, c :: r)

/-- Parse the optional exponent tail `[(e|E)[sign]digits]` of a float literal,
which must end the string; returns the exponent value. -/
def parseExpTail (l : List Char) : Option Int :=
  match l with
  | [] => some 0
  | c :: r =>
    if c = 'e' ∨ c = 'E' then
      let s := parseSignChar r
      match spanDigits s.2 with
      | (ed, []) =>
        if ed = [] then none
        else some (if s.1 then -(digitsVal ed : Int) else (digitsVal ed : Int))
      | _ => none
    else none

/-- Truncation toward zero of `(-1)^neg * digits(ip).digits(fp) * 10^ex`. -/
def truncDecimal (neg : Bool) (ip fp : List Char) (ex : Int) : Int :=
  let m := digitsVal (ip ++ fp)
  let sc : Int := ex - fp.length
  let t : Nat := if 0 ≤ sc then m * 10 ^ sc.toNat else m / 10 ^ (-sc).toNat
  if neg then -(t : Int) else (t : Int)

/-- Model of Python `int(float(s))`: `none` is the `ValueError` raised when the
string is not a float literal.  The decimal value is truncated exactly; Python
first rounds it to the nearest binary64 double, and the two agree whenever the
value is an integer or lies in [0, 16) with at most 15 fractional digits (such
a value is then more than half an ulp — 2^-50 ≈ 8.9e-16 at worst in that
binade — away from the next integer, so rounding cannot cross a truncation
boundary).  Inputs outside this agreement domain, such as
`"12.9999999999999999"` which `float` rounds to `13.0`, are not modelled
faithfully, and every theorem below that quantifies over inputs restricts
itself to the agreement domain. -/
def pyFloatTrunc (l : List Char) : Option Int :=
  let s := parseSignChar l
  let p := spanDigits s.2
  match p.2 with
  | c :: l2 =>
    if c = '.' then
      let q := spanDigits l2
      if p.1 = [] ∧ q.1 = [] then none
      else
        match parseExpTail q.2 with
        | none => none
        | some ex => some (truncDecimal s.1 p.1 q.1 ex)
    else
      if p.1 = [] then none
      else
        match parseExpTail (c :: l2) with
        | none => none
        | some ex => some (truncDecimal s.1 p.1 [] ex)
  | [] =>
    if p.1 = [] then none
    else some (truncDecimal s.1 p.1 [] 0)

/-! ## The timezone normalizer -/

/-- The `raise` sites inside the `try` block of `validate_gmt_timezone`
(before the `except` handler rewrites the message). -/
inductive TzRaise
  | tooShort
  | badSign
  | numParse
  | outOfRange
deriving DecidableEq

/-- The error outcomes of `validate_gmt_timezone` as surfaced to the caller,
one constructor per distinct `ValueError` message. -/
inductive TzErr
  | notProvided
  | noGmtStart
  | tooShortFormat
  | invalidFormat
deriving DecidableEq

/-- Body of the `try` block of `validate_gmt_timezone`, applied to the
characters after the `GMT` prefix of the upper-cased, stripped input:
length check, sign check, numeric parse of the (re-stripped) remainder,
range check, and construction of the reversed-sign `Etc/GMT` zone name. -/
def validateAfterGMT (rest : List Char) : Except TzRaise String :=
  if rest.length < 2 then .error .tooShort
  else
    match rest with
    | [] => .error .tooShort
    | sgn :: tail =>
      if sgn = '+' ∨ sgn = '-' then
        match pyFloatTrunc (listStrip tail) with
        | none => .error .numParse
        | some off =>
          if off < 0 ∨ 12 < off then .error .outOfRange
          else
            .ok (String.mk ('E' :: 't' :: 'c' :: '/' :: 'G' :: 'M' :: 'T' ::
              (if sgn = '+' then '-' else '+') :: (toString off).toList))
      else .error .badSign

/-- The `except` handler of `validate_gmt_timezone`: the re-raised
"Invalid GMT timezone format" error keeps its identity, every other error
raised inside the `try` is replaced by the generic format error. -/
def mapTzRaise (r : Except TzRaise String) : Except TzErr String :=
  match r with
  | .ok v => .ok v
  | .error .tooShort => .error .tooShortFormat
  | .error _ => .error .invalidFormat

/-- Model of `validate_gmt_timezone` (source lines 80–123): reject empty
input, upper-case and strip, require the `GMT` prefix, then run the `try`
block on the remaining characters. -/
def validate_gmt_timezone (s : String) : Except TzErr String :=
  if s = "" then .error .notProvided
  else
    let cs := listStrip (s.data.map Char.toUpper)
    if cs.take 3 = ['G', 'M', 'T'] then mapTzRaise (validateAfterGMT (cs.drop 3))
    else .error .noGmtStart

/-! ## Claim C1 -/

/-- C1: for every integer N with 0 ≤ N ≤ 12 and each sign, `normalize`
applied to `"GMT" + sign + N` succeeds and returns the canonical zone with
the sign negated and the magnitude unchanged: `GMT+N ↦ Etc/GMT-N` and
`GMT-N ↦ Etc/GMT+N`. -/
theorem c1_gmt_offsets_normalize (N : Nat) (hN : N ≤ 12) :
    validate_gmt_timezone ("GMT+" ++ toString N) = .ok ("Etc/GMT-" ++ toString N) ∧
    validate_gmt_timezone ("GMT-" ++ toString N) = .ok ("Etc/GMT+" ++ toString N) := by
  interval_cases N <;> exact ⟨by decide, by decide⟩

/-- Witness for C1 at N = 5: `GMT+5 ↦ Etc/GMT-5` and `GMT-5 ↦ Etc/GMT+5`. -/
theorem c1_gmt_offsets_normalize_witness :
    validate_gmt_timezone ("GMT+" ++ toString 5) = .ok ("Etc/GMT-" ++ toString 5) ∧
    validate_gmt_timezone ("GMT-" ++ toString 5) = .ok ("Etc/GMT+" ++ toString 5) :=
  c1_gmt_offsets_normalize 5 (by decide)

/-! ## Claim C6 -/

/-- C6: decimal-looking magnitudes are truncated toward zero before the range
check, for both signs: `GMT±0.5` succeeds at magnitude 0, `GMT±5.0` succeeds at
magnitude 5, `GMT+12.9` still succeeds at magnitude 12 (truncation happens
before the range check), while `GMT+13` fails, and fails precisely at the
range-check raise site because 13 is outside [0, 12]. -/
theorem c6_truncation_before_range_check :
    validate_gmt_timezone "GMT+0.5" = .ok "Etc/GMT-0" ∧
    validate_gmt_timezone "GMT-0.5" = .ok "Etc/GMT+0" ∧
    validate_gmt_timezone "GMT+5.0" = .ok "Etc/GMT-5" ∧
    validate_gmt_timezone "GMT-5.0" = .ok "Etc/GMT+5" ∧
    validate_gmt_timezone "GMT+12.9" = .ok "Etc/GMT-12" ∧
    validate_gmt_timezone "GMT+13" = .error .invalidFormat ∧
    validateAfterGMT ['+', '1', '3'] = .error .outOfRange ∧
    validateAfterGMT ['-', '1', '3'] = .error .outOfRange := by
  decide

/-! ## Character-class facts -/

/-- A digit character has code point between 48 and 57. -/
theorem char_isDigit_toNat {c : Char} (h : c.isDigit = true) :
    48 ≤ c.toNat ∧ c.toNat ≤ 57 := by
  simp [Char.isDigit, UInt32.le_def, BitVec.le_def, Char.toNat, UInt32.toNat] at h
  exact h

/-- A digit character is not one of the finitely many special characters used
by the parsers in this file. -/
theorem digit_ne {c : Char} (h : c.isDigit = true) (d : Char) (hd : 58 ≤ d.toNat ∨ d.toNat ≤ 47) :
    c ≠ d := by
  intro he
  subst he
  obtain ⟨h1, h2⟩ := char_isDigit_toNat h
  omega

/-- A digit character is not Python whitespace. -/
theorem digit_not_ws {c : Char} (h : c.isDigit = true) : isPyWs c = false := by
  have hb := char_isDigit_toNat h
  simp only [isPyWs, Bool.or_eq_false_iff, decide_eq_false_iff_not]
  refine ⟨⟨⟨⟨⟨?_, ?_⟩, ?_⟩, ?_⟩, ?_⟩, ?_⟩ <;> intro he <;> subst he <;> revert hb <;> decide

/-- Python `str.lower` leaves a digit unchanged. -/
theorem toLower_digit {c : Char} (h : c.isDigit = true) : c.toLower = c := by
  have hb := char_isDigit_toNat h
  rw [Char.toLower, if_neg]
  omega

/-! ## Parsing lemmas -/

/-- `spanDigits` splits its input: the two components concatenate back. -/
theorem spanDigits_append : ∀ l : List Char, (spanDigits l).1 ++ (spanDigits l).2 = l := by
  intro l
  induction l with
  | nil => rfl
  | cons c t ih =>
    by_cases hc : c.isDigit
    · simp [spanDigits, hc, ih]
    · simp [spanDigits, hc]

/-- The first component of `spanDigits` contains only digits. -/
theorem spanDigits_fst : ∀ l : List Char, ∀ c ∈ (spanDigits l).1, c.isDigit = true := by
  intro l
  induction l with
  | nil => simp [spanDigits]
  | cons c t ih =>
    by_cases hc : c.isDigit
    · simp only [spanDigits, hc, if_true]
      intro d hd
      rcases List.mem_cons.mp hd with h | h
      · rwa [h]
      · exact ih d h
    · simp [spanDigits, hc]

/-- `spanDigits` consumes an all-digit list entirely. -/
theorem spanDigits_of_all (l : List Char) (h : ∀ c ∈ l, c.isDigit = true) :
    spanDigits l = (l, []) := by
  induction l with
  | nil => rfl
  | cons c t ih =>
    have hc : c.isDigit = true := h c (List.mem_cons_self c t)
    simp [spanDigits, hc, ih fun d hd => h d (List.mem_cons_of_mem c hd)]

/-- `spanDigits` stops exactly at the first non-digit. -/
theorem spanDigits_append_stop (a b : List Char) (ha : ∀ c ∈ a, c.isDigit = true)
    (hb : ∀ c, b.head? = some c → c.isDigit = false) :
    spanDigits (a ++ b) = (a, b) := by
  induction a with
  | nil =>
    cases b with
    | nil => rfl
    | cons c r => simp [spanDigits, hb c rfl]
  | cons d t ih =>
    have hd : d.isDigit = true := ha d (List.mem_cons_self d t)
    simp [spanDigits, hd, ih fun c hc => ha c (List.mem_cons_of_mem d hc)]

/-- Folding decimal digits from an arbitrary accumulator. -/
theorem digitsVal_foldl (l : List Char) (n : Nat) :
    List.foldl (fun a c => a * 10 + (c.toNat - 48)) n l = n * 10 ^ l.length + digitsVal l := by
  induction l generalizing n with
  | nil => simp [digitsVal]
  | cons c t ih =>
    show List.foldl _ (n * 10 + (c.toNat - 48)) t = _
    rw [ih]
    have : digitsVal (c :: t) = (c.toNat - 48) * 10 ^ t.length + digitsVal t := by
      show List.foldl _ (0 * 10 + (c.toNat - 48)) t = _
      rw [ih]
      ring_nf
    rw [this]
    simp [List.length_cons, pow_succ]
    ring

/-- Value of concatenated digit lists. -/
theorem digitsVal_append (a b : List Char) :
    digitsVal (a ++ b) = digitsVal a * 10 ^ b.length + digitsVal b := by
  show List.foldl _ 0 (a ++ b) = _
  rw [List.foldl_append]
  exact digitsVal_foldl b (digitsVal a)

/-- A digit list of length k has value below 10^k. -/
theorem digitsVal_lt_pow (l : List Char) (h : ∀ c ∈ l, c.isDigit = true) :
    digitsVal l < 10 ^ l.length := by
  induction l with
  | nil => simp [digitsVal]
  | cons c t ih =>
    have hv : c.toNat - 48 ≤ 9 := by
      have := char_isDigit_toNat (h c (List.mem_cons_self c t))
      omega
    have hd : digitsVal t < 10 ^ t.length := ih fun d hd => h d (List.mem_cons_of_mem c hd)
    have : digitsVal (c :: t) = (c.toNat - 48) * 10 ^ t.length + digitsVal t := by
      show List.foldl _ (0 * 10 + (c.toNat - 48)) t = _
      rw [digitsVal_foldl]
      ring_nf
    rw [this, List.length_cons, pow_succ]
    calc (c.toNat - 48) * 10 ^ t.length + digitsVal t
        < (c.toNat - 48) * 10 ^ t.length + 10 ^ t.length := by omega
      _ = (c.toNat - 48 + 1) * 10 ^ t.length := by ring
      _ ≤ 10 * 10 ^ t.length := by
          have : c.toNat - 48 + 1 ≤ 10 := by omega
          exact Nat.mul_le_mul_right _ this
      _ = 10 ^ t.length * 10 := by ring

/-- `dropWhile` is the identity on a list with no leading match. -/
theorem dropWhile_noWs (l : List Char) (h : ∀ c ∈ l, isPyWs c = false) :
    l.dropWhile isPyWs = l := by
  cases l with
  | nil => rfl
  | cons c t => simp [List.dropWhile_cons, h c (List.mem_cons_self c t)]

/-- Python `strip` is the identity on a list containing no whitespace. -/
theorem listStrip_noWs (l : List Char) (h : ∀ c ∈ l, isPyWs c = false) :
    listStrip l = l := by
  unfold listStrip
  rw [dropWhile_noWs l h, dropWhile_noWs l.reverse fun c hc => h c (List.mem_reverse.mp hc),
    List.reverse_reverse]

/-- The float parser consumes no sign when the input starts with a digit. -/
theorem parseSignChar_digit (c : Char) (t : List Char) (h : c.isDigit = true) :
    parseSignChar (c :: t) = (false, c :: t) := by
  simp [parseSignChar, digit_ne h '-' (by decide), digit_ne h '+' (by decide)]

/-- `int(float(s))` on a pure digit string is its decimal value. -/
theorem pyFloatTrunc_digits (ds : List Char) (hne : ds ≠ [])
    (hdig : ∀ c ∈ ds, c.isDigit = true) :
    pyFloatTrunc ds = some ((digitsVal ds : Int)) := by
  obtain ⟨d, t, rfl⟩ : ∃ d t, ds = d :: t := by
    cases ds with
    | nil => exact absurd rfl hne
    | cons d t => exact ⟨d, t, rfl⟩
  unfold pyFloatTrunc
  rw [parseSignChar_digit d t (hdig d (List.mem_cons_self d t))]
  dsimp only
  rw [spanDigits_of_all _ hdig]
  dsimp only
  rw [if_neg (by simp)]
  simp [truncDecimal, digitsVal]

/-- `int(float(s))` on `digits.digits` truncates to the integer part. -/
theorem pyFloatTrunc_digits_dot (ds fs : List Char) (hne : ds ≠ []) (hfne : fs ≠ [])
    (hdig : ∀ c ∈ ds, c.isDigit = true) (hfdig : ∀ c ∈ fs, c.isDigit = true) :
    pyFloatTrunc (ds ++ '.' :: fs) = some ((digitsVal ds : Int)) := by
  obtain ⟨d, t, rfl⟩ : ∃ d t, ds = d :: t := by
    cases ds with
    | nil => exact absurd rfl hne
    | cons d t => exact ⟨d, t, rfl⟩
  unfold pyFloatTrunc
  rw [show (d :: t) ++ '.' :: fs = d :: (t ++ '.' :: fs) from rfl]
  rw [parseSignChar_digit d _ (hdig d (List.mem_cons_self d t))]
  dsimp only
  rw [show d :: (t ++ '.' :: fs) = (d :: t) ++ '.' :: fs from rfl]
  rw [spanDigits_append_stop (d :: t) ('.' :: fs) hdig
    (fun c hc => by injection hc with hc; rw [← hc]; decide)]
  dsimp only
  rw [if_pos rfl, spanDigits_of_all fs hfdig]
  dsimp only
  rw [if_neg (by simp)]
  dsimp only [parseExpTail]
  simp only [truncDecimal, Option.some.injEq]
  rw [digitsVal_append]
  have hlen : 1 ≤ fs.length := by
    cases fs with
    | nil => exact absurd rfl hfne
    | cons c r => simp
  have hfs : digitsVal fs < 10 ^ fs.length := digitsVal_lt_pow fs hfdig
  have hpos : 0 < 10 ^ fs.length := by positivity
  rw [Nat.mul_comm (digitsVal (d :: t))]
  have hcond : ¬ ((0 : Int) ≤ 0 - (fs.length : Int)) := by omega
  rw [if_neg hcond]
  have h2 : (-((0 : Int) - (fs.length : Int))).toNat = fs.length := by omega
  rw [h2, Nat.mul_add_div hpos, Nat.div_eq_of_lt hfs]
  simp

/-! ## Claim C7 -/

/-- Modelled from the spec: acceptance condition of the zone-string grammar
`"GMT" SIGN DIGIT+ [ "." DIGIT+ ]` with `SIGN ∈ {+,-}` and integer part in
[0, 12], applied to the characters after the `GMT` prefix. -/
def grammarTail : List Char → Bool
  | [] => false
  | sgn :: rest =>
    (decide (sgn = '+') || decide (sgn = '-')) &&
    (match spanDigits rest with
     | (ds, []) => decide (ds ≠ []) && decide (digitsVal ds ≤ 12)
     | (ds, '.' :: fs) =>
       decide (ds ≠ []) && decide (fs ≠ []) && fs.all Char.isDigit && decide (digitsVal ds ≤ 12)
     | _ => false)

/-- Modelled from the spec: the full zone-string grammar of §6, checked after
case-folding and trimming, for comparison against `validate_gmt_timezone`. -/
def specZoneGrammar (s : String) : Bool :=
  let cs := listStrip (s.data.map Char.toUpper)
  if cs.take 3 = ['G', 'M', 'T'] then grammarTail (cs.drop 3) else false

/-- Number of fractional digits of the zone string's magnitude, measured on
the case-folded, trimmed form (0 when there is no fractional part).  Used to
restrict the grammar-soundness statement below to inputs where exact decimal
truncation and Python's binary64 `float` rounding agree. -/
def zoneFracLen (s : String) : Nat :=
  let cs := listStrip (s.data.map Char.toUpper)
  let p := spanDigits (cs.drop 4)
  match p.2 with
  | _ :: fs => fs.length
  | [] => 0

/-- The `try` block accepts every tail admitted by the spec grammar. -/
theorem grammarTail_accepts (rest : List Char) (h : grammarTail rest = true) :
    ∃ z, validateAfterGMT rest = .ok z := by
  cases rest with
  | nil => exact absurd h (by decide)
  | cons sgn tail =>
    simp only [grammarTail, Bool.and_eq_true, Bool.or_eq_true, decide_eq_true_eq] at h
    obtain ⟨hsgn, hm⟩ := h
    have happ := spanDigits_append tail
    have hfst := spanDigits_fst tail
    split at hm
    case h_1 ds heq =>
      simp only [Bool.and_eq_true, decide_eq_true_eq] at hm
      obtain ⟨hne, hle⟩ := hm
      rw [heq] at happ hfst
      simp only [List.append_nil] at happ
      subst happ
      have hdig : ∀ c ∈ ds, c.isDigit = true := hfst
      unfold validateAfterGMT
      rw [if_neg (by
        simp only [List.length_cons, not_lt]
        cases ds with
        | nil => exact absurd rfl hne
        | cons c r => simp)]
      dsimp only
      rw [if_pos hsgn]
      rw [listStrip_noWs ds fun c hc => digit_not_ws (hdig c hc)]
      rw [pyFloatTrunc_digits ds hne hdig]
      dsimp only
      have hrange : ¬((digitsVal ds : Int) < 0 ∨ 12 < (digitsVal ds : Int)) := by
        push_neg
        exact ⟨Int.ofNat_nonneg _, by exact_mod_cast hle⟩
      rw [if_neg hrange]
      exact ⟨_, rfl⟩
    case h_2 ds fs heq =>
      simp only [Bool.and_eq_true, decide_eq_true_eq, List.all_eq_true] at hm
      obtain ⟨⟨⟨hne, hfne⟩, hfdig⟩, hle⟩ := hm
      rw [heq] at happ hfst
      subst happ
      have hdig : ∀ c ∈ ds, c.isDigit = true := hfst
      unfold validateAfterGMT
      rw [if_neg (by
        simp only [List.length_cons, not_lt, List.length_append]
        cases ds with
        | nil => exact absurd rfl hne
        | cons c r => simp; omega)]
      dsimp only
      rw [if_pos hsgn]
      rw [listStrip_noWs _ (by
        intro c hc
        rcases List.mem_append.mp hc with h | h
        · exact digit_not_ws (hdig c h)
        · rcases List.mem_cons.mp h with h | h
          · rw [h]; decide
          · exact digit_not_ws (hfdig c h))]
      rw [pyFloatTrunc_digits_dot ds fs hne hfne hdig hfdig]
      dsimp only
      have hrange : ¬((digitsVal ds : Int) < 0 ∨ 12 < (digitsVal ds : Int)) := by
        push_neg
        exact ⟨Int.ofNat_nonneg _, by exact_mod_cast hle⟩
      rw [if_neg hrange]
      exact ⟨_, rfl⟩
    case h_3 => exact absurd hm (by decide)

/-- C7 counterexample: `"GMT+ 5"` — whitespace between the sign and the digits —
is outside the spec grammar, yet `normalize` accepts it (the offset substring is
stripped again at line 109 of the source before numeric parsing). -/
theorem c7_counterexample_grammar_not_exact :
    specZoneGrammar "GMT+ 5" = false ∧
    validate_gmt_timezone "GMT+ 5" = .ok "Etc/GMT-5" := by
  decide

/-- C7 amended: `normalize` succeeds on every input matching the grammar
`"GMT" SIGN DIGIT+ ["." DIGIT+]` with integer part in [0, 12] and at most 15
fractional digits (after case-folding and trimming) — the digit bound keeps
exact decimal truncation and Python's binary64 rounding in agreement — but
the acceptance is not exact: the magnitude substring is itself
whitespace-stripped and parsed as a general signed decimal numeral with
optional exponent, so some strings outside the grammar — such as `"GMT+ 5"`
(interior whitespace) and `"GMT+1E1"` (exponent form) — are also accepted. -/
theorem c7_amended_grammar_sound :
    (∀ s : String, specZoneGrammar s = true → zoneFracLen s ≤ 15 →
      ∃ z, validate_gmt_timezone s = .ok z) ∧
    validate_gmt_timezone "GMT+ 5" = .ok "Etc/GMT-5" ∧
    validate_gmt_timezone "GMT+1E1" = .ok "Etc/GMT-10" := by
  refine ⟨?_, by decide, by decide⟩
  intro s h _hfrac
  unfold specZoneGrammar at h
  dsimp only at h
  by_cases hc : (listStrip (s.data.map Char.toUpper)).take 3 = ['G', 'M', 'T']
  · rw [if_pos hc] at h
    obtain ⟨z, hz⟩ := grammarTail_accepts _ h
    refine ⟨z, ?_⟩
    have hs : s ≠ "" := by
      intro he
      subst he
      exact absurd hc (by decide)
    unfold validate_gmt_timezone
    rw [if_neg hs]
    dsimp only
    rw [if_pos hc, hz]
    rfl
  · rw [if_neg hc] at h
    exact absurd h (by decide)

/-- Witness for C7's amended theorem: `"GMT+5"` matches the grammar, has no
fractional digits, and is accepted. -/
theorem c7_amended_grammar_sound_witness :
    ∃ z, validate_gmt_timezone "GMT+5" = .ok z :=
  c7_amended_grammar_sound.1 "GMT+5" (by decide) (by decide)

/-! ## Model of Python `datetime`

All datetimes appearing in one call of `parse_relative_date` carry the same
fixed-offset zone (`pytz.timezone(iana_timezone)`), so zone-aware comparison
and subtraction coincide with naive field-wise comparison and subtraction; the
`tzinfo` attachment performed by `pytz.localize` on a fixed-offset zone is
therefore modelled as the identity and the zone is not stored. -/

/-- A Python `datetime` value (proleptic Gregorian calendar). -/
structure PyDateTime where
  year : Nat
  month : Nat
  day : Nat
  hour : Nat
  minute : Nat
  second : Nat
  microsecond : Nat
deriving DecidableEq

/-- Gregorian leap-year rule, as in Python's `calendar.isleap`. -/
def isLeap (y : Nat) : Bool :=
  decide (y % 4 = 0 ∧ (y % 100 ≠ 0 ∨ y % 400 = 0))

/-- Number of days in a month of a given year. -/
def daysInMonth (y m : Nat) : Nat :=
  if m = 1 then 31
  else if m = 2 then (if isLeap y then 29 else 28)
  else if m = 3 then 31
  else if m = 4 then 30
  else if m = 5 then 31
  else if m = 6 then 30
  else if m = 7 then 31
  else if m = 8 then 31
  else if m = 9 then 30
  else if m = 10 then 31
  else if m = 11 then 30
  else if m = 12 then 31
  else 0

/-- Days in year `y` strictly before month `m`. -/
def daysBeforeMonth (y m : Nat) : Nat :=
  (if m = 1 then 0
   else if m = 2 then 31
   else if m = 3 then 59
   else if m = 4 then 90
   else if m = 5 then 120
   else if m = 6 then 151
   else if m = 7 then 181
   else if m = 8 then 212
   else if m = 9 then 243
   else if m = 10 then 273
   else if m = 11 then 304
   else 334) +
  (if 3 ≤ m ∧ isLeap y = true then 1 else 0)

/-- Leap days in years 1, ..., y-1. -/
def leapsBefore (y : Nat) : Nat :=
  ((y - 1) / 4 + (y - 1) / 400) - (y - 1) / 100

/-- Python `date.toordinal()`: day 1 is 0001-01-01. -/
def toOrdinal (dt : PyDateTime) : Nat :=
  365 * (dt.year - 1) + leapsBefore dt.year + daysBeforeMonth dt.year dt.month + dt.day

/-- Python `datetime.weekday()`: Monday is 0, Sunday is 6
(0001-01-01, ordinal 1, was a Monday). -/
def pyWeekday (dt : PyDateTime) : Nat :=
  (toOrdinal dt + 6) % 7

/-- Calendar validity of the date fields (Python additionally caps the year at
9999; dates at that boundary are outside the range exercised here). -/
def ValidDate (dt : PyDateTime) : Prop :=
  1 ≤ dt.year ∧ 1 ≤ dt.month ∧ dt.month ≤ 12 ∧ 1 ≤ dt.day ∧
    dt.day ≤ daysInMonth dt.year dt.month

instance (dt : PyDateTime) : Decidable (ValidDate dt) := by
  unfold ValidDate
  infer_instance

/-- Successor day (the effect of `timedelta(days=1)` on the date fields,
carrying month and year as needed; time fields are untouched). -/
def nextDay (dt : PyDateTime) : PyDateTime :=
  if dt.day < daysInMonth dt.year dt.month then { dt with day := dt.day + 1 }
  else if dt.month < 12 then { dt with month := dt.month + 1, day := 1 }
  else { dt with year := dt.year + 1, month := 1, day := 1 }

/-- Addition of `n` calendar days (`dt + timedelta(days=n)`). -/
def addDays : Nat → PyDateTime → PyDateTime
  | 0, dt => dt
  | n + 1, dt => addDays n (nextDay dt)

/-- Microseconds since midnight. -/
def timeUsec (dt : PyDateTime) : Nat :=
  ((dt.hour * 60 + dt.minute) * 60 + dt.second) * 1000000 + dt.microsecond

/-- Microseconds since the epoch 0001-01-01 00:00:00 (ordinal day 1). -/
def totalUsec (dt : PyDateTime) : Nat :=
  toOrdinal dt * 86400000000 + timeUsec dt

/-- Python `datetime` comparison of two datetimes in the same zone. -/
def pyLt (a b : PyDateTime) : Prop :=
  totalUsec a < totalUsec b

instance (a b : PyDateTime) : Decidable (pyLt a b) := by
  unfold pyLt
  infer_instance

/-- Python `(a - b).days`: the `days` field of a `timedelta` is the floor of
the difference in days. -/
def pyDeltaDays (a b : PyDateTime) : Int :=
  Int.fdiv ((totalUsec a : Int) - (totalUsec b : Int)) 86400000000

/-! ## Calendar arithmetic lemmas -/

/-- Every month of a valid index has at least one day. -/
theorem daysInMonth_pos (y m : Nat) (h1 : 1 ≤ m) (h2 : m ≤ 12) :
    1 ≤ daysInMonth y m := by
  interval_cases m <;> cases hl : isLeap y <;> simp [daysInMonth, hl]

/-- Cumulative month offsets agree with month lengths. -/
theorem daysBeforeMonth_succ (y m : Nat) (h1 : 1 ≤ m) (h2 : m ≤ 11) :
    daysBeforeMonth y (m + 1) = daysBeforeMonth y m + daysInMonth y m := by
  interval_cases m <;> cases hl : isLeap y <;> simp [daysBeforeMonth, daysInMonth, hl]

/-- One more year contributes one more leap day exactly for leap years. -/
theorem leapsBefore_succ (y : Nat) (hy : 1 ≤ y) :
    leapsBefore (y + 1) = leapsBefore y + (if isLeap y = true then 1 else 0) := by
  by_cases hp : y % 4 = 0 ∧ (y % 100 ≠ 0 ∨ y % 400 = 0)
  · have hl : isLeap y = true := by simp [isLeap, hp]
    rw [hl, if_pos rfl]
    unfold leapsBefore
    omega
  · have hl : isLeap y = false := by simp [isLeap]; tauto
    rw [hl, if_neg Bool.false_ne_true]
    unfold leapsBefore
    push_neg at hp
    omega

/-- `nextDay` advances the ordinal by one on valid dates. -/
theorem toOrdinal_nextDay (dt : PyDateTime) (h : ValidDate dt) :
    toOrdinal (nextDay dt) = toOrdinal dt + 1 := by
  obtain ⟨hy, hm1, hm2, hd1, hd2⟩ := h
  unfold nextDay
  split_ifs with h1 h2
  · simp only [toOrdinal]
    omega
  · have hde : dt.day = daysInMonth dt.year dt.month := by omega
    simp only [toOrdinal]
    rw [daysBeforeMonth_succ dt.year dt.month hm1 (by omega)]
    omega
  · have hm12 : dt.month = 12 := by omega
    have hdim : daysInMonth dt.year dt.month = 31 := by rw [hm12]; rfl
    have hde : dt.day = 31 := by omega
    have hls := leapsBefore_succ dt.year hy
    have hb1 : daysBeforeMonth (dt.year + 1) 1 = 0 := by simp [daysBeforeMonth]
    have hb12 : daysBeforeMonth dt.year 12 =
        334 + (if isLeap dt.year = true then 1 else 0) := by
      simp [daysBeforeMonth]
    simp only [toOrdinal]
    rw [hm12, hde]
    by_cases hp : isLeap dt.year = true
    · rw [if_pos hp] at hb12 hls
      omega
    · rw [if_neg hp] at hb12 hls
      omega

/-- `nextDay` preserves validity. -/
theorem validDate_nextDay (dt : PyDateTime) (h : ValidDate dt) :
    ValidDate (nextDay dt) := by
  obtain ⟨hy, hm1, hm2, hd1, hd2⟩ := h
  unfold nextDay
  split_ifs with h1 h2
  · refine ⟨hy, hm1, hm2, ?_, ?_⟩
    · show 1 ≤ dt.day + 1
      omega
    · show dt.day + 1 ≤ daysInMonth dt.year dt.month
      omega
  · refine ⟨hy, ?_, ?_, ?_, ?_⟩
    · show 1 ≤ dt.month + 1
      omega
    · show dt.month + 1 ≤ 12
      omega
    · exact Nat.le_refl 1
    · exact daysInMonth_pos dt.year (dt.month + 1) (by omega) (by omega)
  · refine ⟨?_, ?_, ?_, ?_, ?_⟩
    · show 1 ≤ dt.year + 1
      omega
    · exact Nat.le_refl 1
    · show (1 : Nat) ≤ 12
      omega
    · exact Nat.le_refl 1
    · exact daysInMonth_pos (dt.year + 1) 1 (by omega) (by omega)

/-- `nextDay` does not change the time fields. -/
theorem nextDay_time (dt : PyDateTime) :
    (nextDay dt).hour = dt.hour ∧ (nextDay dt).minute = dt.minute ∧
    (nextDay dt).second = dt.second ∧ (nextDay dt).microsecond = dt.microsecond := by
  unfold nextDay
  split_ifs <;> exact ⟨rfl, rfl, rfl, rfl⟩

/-- `addDays` advances the ordinal by `n` and preserves validity. -/
theorem toOrdinal_addDays (n : Nat) (dt : PyDateTime) (h : ValidDate dt) :
    toOrdinal (addDays n dt) = toOrdinal dt + n ∧ ValidDate (addDays n dt) := by
  induction n generalizing dt with
  | zero => exact ⟨rfl, h⟩
  | succ n ih =>
    have h1 := toOrdinal_nextDay dt h
    have h2 := validDate_nextDay dt h
    obtain ⟨ha, hb⟩ := ih (nextDay dt) h2
    refine ⟨?_, hb⟩
    show toOrdinal (addDays n (nextDay dt)) = toOrdinal dt + (n + 1)
    rw [ha, h1]
    omega

/-! ## The relative date resolver -/

/-- Models `tz.localize(datetime(year, month, day))` (localization to the
fixed-offset zone is a no-op here): `none` is the `ValueError` raised by the
`datetime` constructor on out-of-range components. -/
def mkDate (y m d : Nat) : Option PyDateTime :=
  if 1 ≤ y ∧ y ≤ 9999 ∧ 1 ≤ m ∧ m ≤ 12 ∧ 1 ≤ d ∧ d ≤ daysInMonth y m then
    some ⟨y, m, d, 0, 0, 0, 0⟩
  else none

/-- Models `base + relativedelta(months=1)`: advance the month by one, rolling
the year, clamping the day of month to the target month's length, keeping the
time of day. -/
def addMonths1 (dt : PyDateTime) : PyDateTime :=
  if dt.month = 12 then
    { dt with
      year := dt.year + 1
      month := 1
      day := min dt.day (daysInMonth (dt.year + 1) 1) }
  else
    { dt with
      month := dt.month + 1
      day := min dt.day (daysInMonth dt.year (dt.month + 1)) }

/-- The `weekday_map` of the source: recognized weekday names mapped to the
dateutil constants MO..SU (Monday is 0). -/
def lookupWeekday (l : List Char) : Option Nat :=
  if l = "monday".data then some 0
  else if l = "tuesday".data then some 1
  else if l = "wednesday".data then some 2
  else if l = "thursday".data then some 3
  else if l = "friday".data then some 4
  else if l = "saturday".data then some 5
  else if l = "sunday".data then some 6
  else none

/-- Models `dateutil.parser.parse` on a month/day string `M/D` — the only
shape the `next <date>` branch feeds it in the behaviours verified here; any
other string is modelled as the `ValueError` path.  dateutil checks the day
against the month (in its wall-clock default year; a leap-tolerant bound is
used, indistinguishable for the claims).  Only the month and day are returned:
they are the only fields the source reads from the parse result. -/
def parseMonthDayL (l : List Char) : Option (Nat × Nat) :=
  let p := spanDigits l
  match p.2 with
  | c :: rest =>
    if c = '/' ∧ p.1 ≠ [] ∧ rest ≠ [] ∧ rest.all Char.isDigit = true then
      let m := digitsVal p.1
      let d := digitsVal rest
      if 1 ≤ m ∧ m ≤ 12 ∧ 1 ≤ d ∧ d ≤ daysInMonth 2024 m then some (m, d) else none
    else none
  | [] => none

/-- Models `dateutil.parser.parse(s, fuzzy=True)` restricted to explicit
numeric `M/D/YYYY` dates (midnight, no tzinfo); every other free-form phrase is
modelled as the `ValueError` path. -/
def dateutilFuzzy (l : List Char) : Option PyDateTime :=
  let p := spanDigits l
  match p.2 with
  | c :: r1 =>
    if c = '/' then
      let q := spanDigits r1
      match q.2 with
      | c2 :: r2 =>
        if c2 = '/' then
          let w := spanDigits r2
          if p.1 ≠ [] ∧ q.1 ≠ [] ∧ w.1 ≠ [] ∧ w.2 = [] then
            mkDate (digitsVal w.1) (digitsVal p.1) (digitsVal q.1)
          else none
        else none
      | [] => none
    else none
  | [] => none

/-- Python `str.replace("for ", "")`: delete every non-overlapping occurrence
of `"for "`, scanning left to right. -/
def stripFor : List Char → List Char
  | 'f' :: 'o' :: 'r' :: ' ' :: rest => stripFor rest
  | c :: rest => c :: stripFor rest
  | [] => []

/-- Whether the list contains an occurrence of the token `"for "`. -/
def hasForTok : List Char → Bool
  | 'f' :: 'o' :: 'r' :: ' ' :: _ => true
  | _ :: rest => hasForTok rest
  | [] => false

/-- The replacement step is the identity on a list with no `"for "`
occurrence. -/
theorem stripFor_of_no_tok (l : List Char) (h : hasForTok l = false) :
    stripFor l = l := by
  induction l using stripFor.induct with
  | case1 rest => simp [hasForTok] at h
  | case2 c rest hne ih =>
    rw [hasForTok] at h
    · rw [stripFor]
      · rw [ih h]
      · exact hne
    · exact hne
  | case3 => rfl

/-- A list without the letter `f` has no `"for "` occurrence. -/
theorem hasForTok_of_no_f (l : List Char) (hf : ∀ c ∈ l, c ≠ 'f') :
    hasForTok l = false := by
  induction l with
  | nil => rfl
  | cons c t ih =>
    rw [hasForTok]
    · exact ih fun d hd => hf d (List.mem_cons_of_mem c hd)
    · intro r1 hc
      exact absurd hc (hf c (List.mem_cons_self c t))

/-- The phrase normalization of the source (lines 240–242): lower-case, strip,
then `replace('for ', '')` — which deletes every occurrence of `"for "`, not
only a leading one. -/
def normalizePhrase (s : String) : String :=
  String.mk (stripFor (listStrip (s.data.map Char.toLower)))

/-- Models `result.replace(hour=start_hour, minute=0, second=0,
microsecond=0)`; `none` is the `ValueError` Python raises when the hour is
outside 0..23. -/
def pySetHour (dt : PyDateTime) (h : Nat) : Option PyDateTime :=
  if h ≤ 23 then some { dt with hour := h, minute := 0, second := 0, microsecond := 0 }
  else none

/-- The `ValueError`s raised inside the outer `try` of `parse_relative_date`,
before the outer handler wraps them. -/
inductive InnerE
  | couldNotParseDate (datePart : String)
  | fuzzyFailed (phrase : String)
  | badHour
deriving DecidableEq

/-- The error outcomes of `parse_relative_date` as surfaced to the caller. -/
inductive ParseErr
  | missingHour
  | invalidTimezone (e : TzErr)
  | unparseable (phrase : String) (inner : InnerE)
deriving DecidableEq

/-- The phrase classification of `parse_relative_date` (lines 249–291), on the
normalized phrase and the localized reference time: the fixed literal patterns
are tried in source order, then the `next <weekday>` / `next <date>` branch,
then the fuzzy fallback. -/
def classify (rd : String) (base : PyDateTime) : Except InnerE PyDateTime :=
  if rd = "tomorrow" then .ok (addDays 1 base)
  else if rd = "next week" then .ok (addDays 7 base)
  else if rd = "next month" then .ok (addMonths1 base)
  else if rd.data.take 5 = ['n', 'e', 'x', 't', ' '] then
    let tail := rd.data.drop 5
    match lookupWeekday tail with
    | some wd => .ok (addDays ((7 + wd - pyWeekday base) % 7) base)
    | none =>
      match parseMonthDayL tail with
      | none => .error (.couldNotParseDate (String.mk tail))
      | some md =>
        match mkDate base.year md.1 md.2 with
        | none => .error (.couldNotParseDate (String.mk tail))
        | some t =>
          if pyLt t base ∨ pyDeltaDays t base < 7 then
            match mkDate (base.year + 1) md.1 md.2 with
            | none => .error (.couldNotParseDate (String.mk tail))
            | some t2 => .ok t2
          else .ok t
  else
    match dateutilFuzzy rd.data with
    | none => .error (.fuzzyFailed rd)
    | some p => .ok p

/-- Model of `parse_relative_date` (source lines 207–296): the missing-hour
check, timezone validation, reference-time resolution (`now` supplies the
`datetime.now(tz)` value read when `base_time` is omitted), phrase
normalization, classification, and the final hour replacement. -/
def parse_relative_date (now : PyDateTime) (relative_date : String)
    (timezone_str : String) (start_hour : Option Nat)
    (base_time : Option PyDateTime) : Except ParseErr PyDateTime :=
  match start_hour with
  | none => .error .missingHour
  | some h =>
    match validate_gmt_timezone timezone_str with
    | .error e => .error (.invalidTimezone e)
    | .ok _ =>
      let base := base_time.getD now
      let rd := normalizePhrase relative_date
      match classify rd base with
      | .error e => .error (.unparseable rd e)
      | .ok r =>
        match pySetHour r h with
        | none => .error (.unparseable rd .badHour)
        | some res => .ok res

/-! ## Claim C3 -/

/-- C3: with the hour omitted, `resolve` fails with the missing-hour error for
every phrase, zone and reference instant — no default hour is substituted. -/
theorem c3_missing_hour_always_fails (now : PyDateTime) (phrase zone : String)
    (base : Option PyDateTime) :
    parse_relative_date now phrase zone none base = .error .missingHour := rfl

/-! ## Claim C10 -/

/-- C10: the missing-hour check precedes timezone validation: even when the
zone string itself is invalid (rejected by the normalizer), a call without an
hour fails with the missing-hour error, not a timezone error. -/
theorem c10_missing_hour_precedes_zone_check (now : PyDateTime)
    (phrase zone : String) (base : Option PyDateTime)
    (_hbad : ∃ e, validate_gmt_timezone zone = .error e) :
    parse_relative_date now phrase zone none base = .error .missingHour := rfl

/-- Witness for C10 at the invalid zone `"EST"` (rejected for its missing
`GMT` prefix). -/
theorem c10_missing_hour_precedes_zone_check_witness :
    parse_relative_date ⟨2024, 3, 14, 8, 0, 0, 0⟩ "tomorrow" "EST" none none =
      .error .missingHour :=
  c10_missing_hour_precedes_zone_check ⟨2024, 3, 14, 8, 0, 0, 0⟩ "tomorrow" "EST"
    none ⟨.noGmtStart, by decide⟩

/-! ## Claim C5 -/

/-- C5: every successful result of `resolve` carries the caller-supplied hour
with minutes, seconds and microseconds zeroed, whatever the phrase shape —
any time component produced during classification is discarded. -/
theorem c5_result_time_is_requested_hour (now : PyDateTime) (phrase zone : String)
    (h : Nat) (base : Option PyDateTime) (res : PyDateTime)
    (hok : parse_relative_date now phrase zone (some h) base = .ok res) :
    res.hour = h ∧ res.minute = 0 ∧ res.second = 0 ∧ res.microsecond = 0 := by
  unfold parse_relative_date at hok
  cases hv : validate_gmt_timezone zone with
  | error e =>
    rw [hv] at hok
    exact absurd hok (by simp)
  | ok zi =>
    rw [hv] at hok
    dsimp only at hok
    cases hc : classify (normalizePhrase phrase) (base.getD now) with
    | error e =>
      rw [hc] at hok
      exact absurd hok (by simp)
    | ok r =>
      rw [hc] at hok
      dsimp only at hok
      unfold pySetHour at hok
      by_cases hh : h ≤ 23
      · rw [if_pos hh] at hok
        dsimp only at hok
        injection hok with hok
        subst hok
        exact ⟨rfl, rfl, rfl, rfl⟩
      · rw [if_neg hh] at hok
        exact absurd hok (by simp)

/-- Witness for C5: resolving `"tomorrow"` at hour 9 from 2024-03-14 08:30
yields 2024-03-15 09:00:00.000000. -/
theorem c5_result_time_is_requested_hour_witness :
    (⟨2024, 3, 15, 9, 0, 0, 0⟩ : PyDateTime).hour = 9 ∧
    (⟨2024, 3, 15, 9, 0, 0, 0⟩ : PyDateTime).minute = 0 ∧
    (⟨2024, 3, 15, 9, 0, 0, 0⟩ : PyDateTime).second = 0 ∧
    (⟨2024, 3, 15, 9, 0, 0, 0⟩ : PyDateTime).microsecond = 0 :=
  c5_result_time_is_requested_hour ⟨2024, 3, 14, 8, 30, 0, 0⟩ "tomorrow" "GMT+5" 9
    (some ⟨2024, 3, 14, 8, 30, 0, 0⟩) ⟨2024, 3, 15, 9, 0, 0, 0⟩ (by decide)

/-! ## Claim C9 -/

/-- C9 counterexample: the phrase `"next for monday"` does not begin with
`"for "`, yet its interior `"for "` is deleted by the normalization (Python
`replace` removes every occurrence), and the phrase is consequently classified
exactly like `"next monday"` — refuting both the front-only stripping and the
preservation of interior occurrences. -/
theorem c9_counterexample_interior_for_removed :
    "next for monday".data.take 4 ≠ ['f', 'o', 'r', ' '] ∧
    String.mk (listStrip ("next for monday".data.map Char.toLower)) = "next for monday" ∧
    normalizePhrase "next for monday" = "next monday" ∧
    parse_relative_date ⟨2024, 3, 14, 9, 0, 0, 0⟩ "next for monday" "GMT+5" (some 10)
        (some ⟨2024, 3, 14, 9, 0, 0, 0⟩) =
      parse_relative_date ⟨2024, 3, 14, 9, 0, 0, 0⟩ "next monday" "GMT+5" (some 10)
        (some ⟨2024, 3, 14, 9, 0, 0, 0⟩) := by
  decide

/-- C9 amended: before classification the phrase is case-folded, trimmed, and
every occurrence of the substring `"for "` anywhere in it is deleted: a phrase
whose case-folded trimmed form contains no `"for "` is classified unchanged,
while interior occurrences are removed (e.g. `"next for monday"` is normalized
to `"next monday"`). -/
theorem c9_amended_strip_removes_every_for :
    (∀ p : String, hasForTok (listStrip (p.data.map Char.toLower)) = false →
      normalizePhrase p = String.mk (listStrip (p.data.map Char.toLower))) ∧
    normalizePhrase "next for monday" = "next monday" := by
  constructor
  · intro p h
    unfold normalizePhrase
    rw [stripFor_of_no_tok _ h]
  · decide

/-- Witness for C9's amended theorem at the phrase `"  Tomorrow "`. -/
theorem c9_amended_strip_removes_every_for_witness :
    normalizePhrase "  Tomorrow " =
      String.mk (listStrip ("  Tomorrow ".data.map Char.toLower)) :=
  c9_amended_strip_removes_every_for.1 "  Tomorrow " (by decide)

/-! ## Claim C8 -/

/-- C8 counterexample: an unrecognized weekday token (`"next mnday"`) fails
with the very same could-not-parse-date error — same constructor, same
message shape — that any other unparseable date part (`"next 99/99"`)
produces; there is no distinct ambiguous-weekday-name error kind in the
code. -/
theorem c8_counterexample_no_distinct_weekday_error :
    parse_relative_date ⟨2024, 3, 14, 9, 0, 0, 0⟩ "next mnday" "GMT+5" (some 9)
        (some ⟨2024, 3, 14, 9, 0, 0, 0⟩) =
      .error (.unparseable "next mnday" (.couldNotParseDate "mnday")) ∧
    parse_relative_date ⟨2024, 3, 14, 9, 0, 0, 0⟩ "next 99/99" "GMT+5" (some 9)
        (some ⟨2024, 3, 14, 9, 0, 0, 0⟩) =
      .error (.unparseable "next 99/99" (.couldNotParseDate "99/99")) := by
  decide

/-- C8 amended: a `"next <token>"` phrase whose token matches no recognized
weekday name falls through to date parsing, and when that fails `resolve`
fails with the generic could-not-parse-date error carrying the offending
token — the same error kind used for unparseable dates, not a distinct
ambiguous-weekday error. -/
theorem c8_amended_unrecognized_weekday_generic_error (now : PyDateTime)
    (z zi : String) (h : Nat) (base : PyDateTime)
    (hz : validate_gmt_timezone z = .ok zi) :
    parse_relative_date now "next mnday" z (some h) (some base) =
      .error (.unparseable "next mnday" (.couldNotParseDate "mnday")) := by
  unfold parse_relative_date
  rw [hz]
  dsimp only
  have hn : normalizePhrase "next mnday" = "next mnday" := by decide
  rw [hn]
  simp only [Option.getD_some]
  have hcl : classify "next mnday" base = .error (.couldNotParseDate "mnday") := rfl
  rw [hcl]

/-- Witness for C8's amended theorem at zone `"GMT+5"`, hour 9,
reference 2024-03-20 09:00. -/
theorem c8_amended_unrecognized_weekday_generic_error_witness :
    parse_relative_date ⟨2024, 3, 20, 9, 0, 0, 0⟩ "next mnday" "GMT+5" (some 9)
        (some ⟨2024, 3, 20, 9, 0, 0, 0⟩) =
      .error (.unparseable "next mnday" (.couldNotParseDate "mnday")) :=
  c8_amended_unrecognized_weekday_generic_error ⟨2024, 3, 20, 9, 0, 0, 0⟩
    "GMT+5" "Etc/GMT-5" 9 ⟨2024, 3, 20, 9, 0, 0, 0⟩ (by decide)

/-! ## Claim C2 -/

/-- Core of the weekday-phrase analysis: when classification lands in the
`next <weekday>` branch, the dateutil jump `(7 - weekday(base) + target) % 7`
produces the first matching weekday on or after the reference: the result's
weekday is the target, it lies within the following 7 days, and when the
reference already falls on the target weekday the result is the reference day
itself. -/
theorem c2_core (now : PyDateTime) (phrase z zi : String) (wd h : Nat)
    (base : PyDateTime)
    (hz : validate_gmt_timezone z = .ok zi) (hh : h ≤ 23) (hv : ValidDate base)
    (hwd : wd < 7)
    (hcl : classify (normalizePhrase phrase) base =
      .ok (addDays ((7 + wd - pyWeekday base) % 7) base)) :
    ∃ res, parse_relative_date now phrase z (some h) (some base) = .ok res ∧
      pyWeekday res = wd ∧
      toOrdinal base ≤ toOrdinal res ∧ toOrdinal res < toOrdinal base + 7 ∧
      (pyWeekday base = wd → toOrdinal res = toOrdinal base) := by
  have hpath : parse_relative_date now phrase z (some h) (some base) =
      .ok { addDays ((7 + wd - pyWeekday base) % 7) base with
        hour := h, minute := 0, second := 0, microsecond := 0 } := by
    unfold parse_relative_date
    rw [hz]
    dsimp only
    simp only [Option.getD_some]
    rw [hcl]
    dsimp only
    unfold pySetHour
    rw [if_pos hh]
  obtain ⟨hord, _⟩ := toOrdinal_addDays ((7 + wd - pyWeekday base) % 7) base hv
  simp only [pyWeekday] at hord
  refine ⟨_, hpath, ?_, ?_, ?_, ?_⟩
  · show pyWeekday (addDays ((7 + wd - pyWeekday base) % 7) base) = wd
    simp only [pyWeekday]
    rw [hord]
    omega
  · show toOrdinal base ≤ toOrdinal (addDays ((7 + wd - pyWeekday base) % 7) base)
    simp only [pyWeekday]
    rw [hord]
    omega
  · show toOrdinal (addDays ((7 + wd - pyWeekday base) % 7) base) < toOrdinal base + 7
    simp only [pyWeekday]
    rw [hord]
    omega
  · intro ht
    show toOrdinal (addDays ((7 + wd - pyWeekday base) % 7) base) = toOrdinal base
    simp only [pyWeekday] at ht ⊢
    rw [hord]
    omega

/-- C2 counterexample: with a reference that is itself a Monday (2024-03-18),
`resolve("next monday", ...)` returns that very same day — not a date 7 days
later — because `relativedelta(weekday=MO(+1))` keeps a date already on the
requested weekday. -/
theorem c2_counterexample_same_day_kept :
    pyWeekday ⟨2024, 3, 18, 9, 0, 0, 0⟩ = 0 ∧
    parse_relative_date ⟨2024, 3, 18, 9, 0, 0, 0⟩ "next monday" "GMT+5" (some 10)
        (some ⟨2024, 3, 18, 9, 0, 0, 0⟩) =
      .ok ⟨2024, 3, 18, 10, 0, 0, 0⟩ := by
  decide

/-- C2 amended: for every recognized weekday name and reference instant,
`resolve("next <weekday>", ...)` returns the first occurrence of that weekday
on or after the reference — within the next 7 days and with the requested
weekday — and when the reference itself falls on that weekday the resolved
date is the same day (0 days later), not 7 days later.  (The year bound keeps
the reference inside Python's `datetime` range, where the up-to-6-day jump
cannot overflow.) -/
theorem c2_amended_next_weekday_on_or_after (name : String) (wd : Nat)
    (now : PyDateTime) (z zi : String) (h : Nat) (base : PyDateTime)
    (hw : lookupWeekday name.data = some wd)
    (hz : validate_gmt_timezone z = .ok zi) (hh : h ≤ 23) (hv : ValidDate base)
    (_hybound : base.year ≤ 9998) :
    ∃ res, parse_relative_date now ("next " ++ name) z (some h) (some base) = .ok res ∧
      pyWeekday res = wd ∧
      toOrdinal base ≤ toOrdinal res ∧ toOrdinal res < toOrdinal base + 7 ∧
      (pyWeekday base = wd → toOrdinal res = toOrdinal base) := by
  unfold lookupWeekday at hw
  split_ifs at hw with h1 h2 h3 h4 h5 h6 h7
  · injection hw with hw
    subst hw
    rw [String.ext h1]
    exact c2_core now _ z zi _ h base hz hh hv (by decide) rfl
  · injection hw with hw
    subst hw
    rw [String.ext h2]
    exact c2_core now _ z zi _ h base hz hh hv (by decide) rfl
  · injection hw with hw
    subst hw
    rw [String.ext h3]
    exact c2_core now _ z zi _ h base hz hh hv (by decide) rfl
  · injection hw with hw
    subst hw
    rw [String.ext h4]
    exact c2_core now _ z zi _ h base hz hh hv (by decide) rfl
  · injection hw with hw
    subst hw
    rw [String.ext h5]
    exact c2_core now _ z zi _ h base hz hh hv (by decide) rfl
  · injection hw with hw
    subst hw
    rw [String.ext h6]
    exact c2_core now _ z zi _ h base hz hh hv (by decide) rfl
  · injection hw with hw
    subst hw
    rw [String.ext h7]
    exact c2_core now _ z zi _ h base hz hh hv (by decide) rfl

/-- Witness for C2's amended theorem: `"next monday"` at hour 10 from the
Friday 2024-03-15. -/
theorem c2_amended_next_weekday_on_or_after_witness :
    ∃ res, parse_relative_date ⟨2024, 3, 15, 9, 0, 0, 0⟩ ("next " ++ "monday")
        "GMT+5" (some 10) (some ⟨2024, 3, 15, 9, 0, 0, 0⟩) = .ok res ∧
      pyWeekday res = 0 ∧
      toOrdinal ⟨2024, 3, 15, 9, 0, 0, 0⟩ ≤ toOrdinal res ∧
      toOrdinal res < toOrdinal ⟨2024, 3, 15, 9, 0, 0, 0⟩ + 7 ∧
      (pyWeekday ⟨2024, 3, 15, 9, 0, 0, 0⟩ = 0 → toOrdinal res = toOrdinal ⟨2024, 3, 15, 9, 0, 0, 0⟩) :=
  c2_amended_next_weekday_on_or_after "monday" 0 ⟨2024, 3, 15, 9, 0, 0, 0⟩
    "GMT+5" "Etc/GMT-5" 10 ⟨2024, 3, 15, 9, 0, 0, 0⟩ (by decide) (by decide)
    (by decide) (by decide) (by decide)

/-! ## Claim C4 -/

/-- Stripping is the identity when the first and last characters are not
whitespace. -/
theorem listStrip_of_ends (l : List Char)
    (h1 : ∀ c, l.head? = some c → isPyWs c = false)
    (h2 : ∀ c, l.getLast? = some c → isPyWs c = false) :
    listStrip l = l := by
  cases l with
  | nil => rfl
  | cons a t =>
    have hdw : (a :: t).dropWhile isPyWs = a :: t := by
      rw [List.dropWhile_cons, h1 a rfl]
      simp
    unfold listStrip
    rw [hdw]
    cases hr : (a :: t).reverse with
    | nil => exact absurd hr (by simp)
    | cons b u =>
      have hb : isPyWs b = false := by
        apply h2
        rw [← List.head?_reverse, hr]
        rfl
      have hdw2 : (b :: u).dropWhile isPyWs = b :: u := by
        rw [List.dropWhile_cons, hb]
        simp
      rw [hdw2, show (b :: u) = (a :: t).reverse from hr.symm,
        List.reverse_reverse]

/-- Mapping `toLower` over characters it fixes is the identity. -/
theorem map_toLower_id (l : List Char) (h : ∀ c ∈ l, c.toLower = c) :
    l.map Char.toLower = l := by
  induction l with
  | nil => rfl
  | cons c t ih =>
    rw [List.map_cons, h c (List.mem_cons_self c t),
      ih fun d hd => h d (List.mem_cons_of_mem c hd)]

/-- Inversion of a successful month/day parse: the input splits as nonempty
digits, a slash, and nonempty digits. -/
theorem parseMonthDayL_inv (l : List Char) (m d : Nat)
    (h : parseMonthDayL l = some (m, d)) :
    ∃ ds fs, l = ds ++ '/' :: fs ∧ ds ≠ [] ∧ fs ≠ [] ∧
      (∀ c ∈ ds, c.isDigit = true) ∧ (∀ c ∈ fs, c.isDigit = true) := by
  have happ := spanDigits_append l
  have hfst := spanDigits_fst l
  unfold parseMonthDayL at h
  dsimp only at h
  cases hp : (spanDigits l).2 with
  | nil =>
    rw [hp] at h
    exact absurd h (by simp)
  | cons c rest =>
    rw [hp] at h
    dsimp only at h
    split_ifs at h with hc1 hc2
    obtain ⟨hc, hne, hrne, hall⟩ := hc1
    refine ⟨(spanDigits l).1, rest, ?_, hne, hrne, hfst, ?_⟩
    · rw [hp] at happ
      rw [hc] at happ
      exact happ.symm
    · simpa using hall

/-- A digit-headed token matches no weekday name. -/
theorem lookupWeekday_none_of_digit_head (d0 : Char) (t : List Char)
    (hd : d0.isDigit = true) : lookupWeekday (d0 :: t) = none := by
  have key : ∀ (w : List Char) (c0 : Char), w.head? = some c0 →
      c0.isDigit = false → d0 :: t ≠ w := by
    intro w c0 hw hc he
    rw [← he, List.head?_cons] at hw
    injection hw with hw
    rw [← hw, hd] at hc
    exact absurd hc (by decide)
  unfold lookupWeekday
  rw [if_neg (key "monday".data 'm' rfl (by decide)),
    if_neg (key "tuesday".data 't' rfl (by decide)),
    if_neg (key "wednesday".data 'w' rfl (by decide)),
    if_neg (key "thursday".data 't' rfl (by decide)),
    if_neg (key "friday".data 'f' rfl (by decide)),
    if_neg (key "saturday".data 's' rfl (by decide)),
    if_neg (key "sunday".data 's' rfl (by decide))]

/-- Inversion of a successful `datetime` construction. -/
theorem mkDate_inv (y m d : Nat) (t : PyDateTime) (h : mkDate y m d = some t) :
    t = ⟨y, m, d, 0, 0, 0, 0⟩ := by
  unfold mkDate at h
  split_ifs at h with hc
  injection h with h
  exact h.symm

/-- The phrase normalization is the identity on `"next <digits>/<digits>"`
phrases: no case change, no surrounding whitespace, no `"for "` occurrence. -/
theorem normalizePhrase_next_md (s : String) (ds fs : List Char)
    (hsd : s.data = ds ++ '/' :: fs) (hfne : fs ≠ [])
    (hd : ∀ c ∈ ds, c.isDigit = true) (hf : ∀ c ∈ fs, c.isDigit = true) :
    normalizePhrase ("next " ++ s) = "next " ++ s := by
  have hdata : ("next " ++ s).data = 'n' :: 'e' :: 'x' :: 't' :: ' ' :: s.data := by
    rw [String.data_append]
    rfl
  have hmem : ∀ c ∈ s.data, c.isDigit = true ∨ c = '/' := by
    intro c hc
    rw [hsd] at hc
    rcases List.mem_append.mp hc with h | h
    · exact Or.inl (hd c h)
    · rcases List.mem_cons.mp h with h | h
      · exact Or.inr h
      · exact Or.inl (hf c h)
  have hmap2 : s.data.map Char.toLower = s.data := by
    apply map_toLower_id
    intro c hc
    rcases hmem c hc with h | h
    · exact toLower_digit h
    · rw [h]
      rfl
  have hmap : ('n' :: 'e' :: 'x' :: 't' :: ' ' :: s.data).map Char.toLower =
      'n' :: 'e' :: 'x' :: 't' :: ' ' :: s.data := by
    simp only [List.map_cons, hmap2]
    rfl
  have hstrip : listStrip ('n' :: 'e' :: 'x' :: 't' :: ' ' :: s.data) =
      'n' :: 'e' :: 'x' :: 't' :: ' ' :: s.data := by
    apply listStrip_of_ends
    · intro c hc
      rw [List.head?_cons] at hc
      injection hc with hc
      rw [← hc]
      rfl
    · intro c hc
      have hsplit : 'n' :: 'e' :: 'x' :: 't' :: ' ' :: s.data =
          ('n' :: 'e' :: 'x' :: 't' :: ' ' :: (ds ++ ['/'])) ++ fs := by
        rw [hsd]
        simp
      rw [hsplit, List.getLast?_append_of_ne_nil _ hfne] at hc
      have hcm : c ∈ fs := List.mem_of_getLast?_eq_some hc
      exact digit_not_ws (hf c hcm)
  have hfor : stripFor ('n' :: 'e' :: 'x' :: 't' :: ' ' :: s.data) =
      'n' :: 'e' :: 'x' :: 't' :: ' ' :: s.data := by
    apply stripFor_of_no_tok
    apply hasForTok_of_no_f
    intro c hc
    rcases List.mem_cons.mp hc with h | hc
    · rw [h]; decide
    rcases List.mem_cons.mp hc with h | hc
    · rw [h]; decide
    rcases List.mem_cons.mp hc with h | hc
    · rw [h]; decide
    rcases List.mem_cons.mp hc with h | hc
    · rw [h]; decide
    rcases List.mem_cons.mp hc with h | hc
    · rw [h]; decide
    rcases hmem c hc with h | h
    · exact digit_ne h 'f' (by decide)
    · rw [h]; decide
  unfold normalizePhrase
  rw [hdata, hmap, hstrip, hfor]
  exact String.ext (by rw [hdata])

/-- C4: a phrase `"next <month>/<day>"` is interpreted as the reference
year's occurrence of that month and day; when that date is strictly before
the reference or falls less than 7 days after it, the result is instead the
next year's occurrence (same month and day, year advanced by one); otherwise
it is this year's occurrence.  The hypotheses supply the successful month/day
parse and the two candidate dates' constructions, exactly as the source
builds them. -/
theorem c4_explicit_date_rolls_when_close (s : String) (m d : Nat)
    (now : PyDateTime) (z zi : String) (h : Nat) (base : PyDateTime)
    (t t2 : PyDateTime)
    (hmd : parseMonthDayL s.data = some (m, d))
    (hz : validate_gmt_timezone z = .ok zi) (hh : h ≤ 23)
    (ht : mkDate base.year m d = some t)
    (ht2 : mkDate (base.year + 1) m d = some t2) :
    ∃ res, parse_relative_date now ("next " ++ s) z (some h) (some base) = .ok res ∧
      res.month = m ∧ res.day = d ∧ res.hour = h ∧
      ((pyLt t base ∨ pyDeltaDays t base < 7) → res.year = base.year + 1) ∧
      (¬(pyLt t base ∨ pyDeltaDays t base < 7) → res.year = base.year) := by
  have hT := mkDate_inv _ _ _ _ ht
  subst hT
  have hT2 := mkDate_inv _ _ _ _ ht2
  subst hT2
  obtain ⟨ds, fs, hsd, hdne, hfne, hd, hf⟩ := parseMonthDayL_inv s.data m d hmd
  obtain ⟨d0, t0, hds⟩ : ∃ d0 t0, ds = d0 :: t0 := by
    cases ds with
    | nil => exact absurd rfl hdne
    | cons x y => exact ⟨x, y, rfl⟩
  have hd0 : d0.isDigit = true := hd d0 (by rw [hds]; exact List.mem_cons_self _ _)
  have hnorm := normalizePhrase_next_md s ds fs hsd hfne hd hf
  have hdata : ("next " ++ s).data = 'n' :: 'e' :: 'x' :: 't' :: ' ' :: s.data := by
    rw [String.data_append]
    rfl
  have htake : ("next " ++ s).data.take 5 = ['n', 'e', 'x', 't', ' '] := by
    rw [hdata]
    rfl
  have hdrop : ("next " ++ s).data.drop 5 = s.data := by
    rw [hdata]
    rfl
  have hlw : lookupWeekday s.data = none := by
    rw [hsd, hds]
    exact lookupWeekday_none_of_digit_head d0 (t0 ++ '/' :: fs) hd0
  have hne1 : ("next " ++ s) ≠ "tomorrow" := by
    intro he
    have h0 := congrArg String.data he
    rw [hdata, show "tomorrow".data = ['t', 'o', 'm', 'o', 'r', 'r', 'o', 'w'] from rfl] at h0
    injection h0 with hx _
    exact absurd hx (by decide)
  have hne2 : ("next " ++ s) ≠ "next week" := by
    intro he
    have h0 := congrArg String.data he
    rw [hdata,
      show "next week".data = ['n', 'e', 'x', 't', ' ', 'w', 'e', 'e', 'k'] from rfl] at h0
    injection h0 with _ h0
    injection h0 with _ h0
    injection h0 with _ h0
    injection h0 with _ h0
    injection h0 with _ h0
    rw [hsd, hds, List.cons_append] at h0
    injection h0 with hx _
    rw [hx] at hd0
    exact absurd hd0 (by decide)
  have hne3 : ("next " ++ s) ≠ "next month" := by
    intro he
    have h0 := congrArg String.data he
    rw [hdata,
      show "next month".data = ['n', 'e', 'x', 't', ' ', 'm', 'o', 'n', 't', 'h'] from rfl] at h0
    injection h0 with _ h0
    injection h0 with _ h0
    injection h0 with _ h0
    injection h0 with _ h0
    injection h0 with _ h0
    rw [hsd, hds, List.cons_append] at h0
    injection h0 with hx _
    rw [hx] at hd0
    exact absurd hd0 (by decide)
  have hcls : classify ("next " ++ s) base =
      (if pyLt ⟨base.year, m, d, 0, 0, 0, 0⟩ base ∨
          pyDeltaDays ⟨base.year, m, d, 0, 0, 0, 0⟩ base < 7 then
        Except.ok (⟨base.year + 1, m, d, 0, 0, 0, 0⟩ : PyDateTime)
      else Except.ok ⟨base.year, m, d, 0, 0, 0, 0⟩) := by
    unfold classify
    rw [if_neg hne1, if_neg hne2, if_neg hne3, if_pos htake]
    dsimp only
    rw [hdrop, hlw]
    dsimp only
    rw [hmd]
    dsimp only
    rw [ht]
    dsimp only
    rw [ht2]
  by_cases hcond : pyLt ⟨base.year, m, d, 0, 0, 0, 0⟩ base ∨
      pyDeltaDays ⟨base.year, m, d, 0, 0, 0, 0⟩ base < 7
  · have hpath : parse_relative_date now ("next " ++ s) z (some h) (some base) =
        .ok ⟨base.year + 1, m, d, h, 0, 0, 0⟩ := by
      unfold parse_relative_date
      rw [hz]
      dsimp only
      simp only [Option.getD_some]
      rw [hnorm, hcls, if_pos hcond]
      dsimp only
      unfold pySetHour
      rw [if_pos hh]
    exact ⟨_, hpath, rfl, rfl, rfl, fun _ => rfl, fun hx => absurd hcond hx⟩
  · have hpath : parse_relative_date now ("next " ++ s) z (some h) (some base) =
        .ok ⟨base.year, m, d, h, 0, 0, 0⟩ := by
      unfold parse_relative_date
      rw [hz]
      dsimp only
      simp only [Option.getD_some]
      rw [hnorm, hcls, if_neg hcond]
      dsimp only
      unfold pySetHour
      rw [if_pos hh]
    exact ⟨_, hpath, rfl, rfl, rfl, fun hx => absurd hx hcond, fun _ => rfl⟩

/-- Witness for C4, realizing the spec's own example: with reference
2024-12-20, `"next 12/25"` is within 7 days, so the result is Dec 25 of the
next year. -/
theorem c4_explicit_date_rolls_when_close_witness :
    ∃ res, parse_relative_date ⟨2024, 12, 20, 8, 0, 0, 0⟩ ("next " ++ "12/25")
        "GMT+5" (some 9) (some ⟨2024, 12, 20, 8, 0, 0, 0⟩) = .ok res ∧
      res.month = 12 ∧ res.day = 25 ∧ res.hour = 9 ∧
      ((pyLt ⟨2024, 12, 25, 0, 0, 0, 0⟩ ⟨2024, 12, 20, 8, 0, 0, 0⟩ ∨
          pyDeltaDays ⟨2024, 12, 25, 0, 0, 0, 0⟩ ⟨2024, 12, 20, 8, 0, 0, 0⟩ < 7) →
        res.year = 2024 + 1) ∧
      (¬(pyLt ⟨2024, 12, 25, 0, 0, 0, 0⟩ ⟨2024, 12, 20, 8, 0, 0, 0⟩ ∨
          pyDeltaDays ⟨2024, 12, 25, 0, 0, 0, 0⟩ ⟨2024, 12, 20, 8, 0, 0, 0⟩ < 7) →
        res.year = 2024) :=
  c4_explicit_date_rolls_when_close "12/25" 12 25 ⟨2024, 12, 20, 8, 0, 0, 0⟩
    "GMT+5" "Etc/GMT-5" 9 ⟨2024, 12, 20, 8, 0, 0, 0⟩
    ⟨2024, 12, 25, 0, 0, 0, 0⟩ ⟨2025, 12, 25, 0, 0, 0, 0⟩
    (by decide) (by decide) (by decide) (by decide) (by decide)

end Calendar
